import Mathlib

/-!
Shallow embedding of the tzindex block-builder core: `etl/model/block.go`
(Block model, NewBlock, FetchRPC, NextN, Update, pool lifecycle),
`etl/op_implicit.go` (AppendImplicitEvents, AppendImplicitBlockOps) and the
cursor decoding of `StreamOpTable` (tables layer).

Machine integers (Go `int`, `int64`) are modelled as `Int`; unsigned cursor
ids as `Nat`.  Timestamps are modelled in whole seconds (Tezos RPC block
timestamps have second granularity, and `Sub(..)/time.Second` divides the
nanosecond difference down to whole seconds).
-/

namespace TzIndex

/-- Operation type tag, from `model.OpType` as used by the switch in
`Block.Update` and the implicit-event builders.  `other` stands for every
member of the enumeration that none of the embedded code inspects. -/
inductive OpType where
  | bake
  | bonus
  | reward
  | endorsement
  | nonceRevelation
  | airdrop
  | invoice
  | subsidy
  | activation
  | doubleBaking
  | doubleEndorsement
  | doublePreendorsement
  | seedSlash
  | transaction
  | origination
  | rollupOrigination
  | delegation
  | reveal
  | depositsLimit
  | registerConstant
  | proposal
  | ballot
  | rollupTransaction
  | unfreeze
  | deposit
  | other
  deriving DecidableEq, Repr

/-- Modelled from the spec: the op-list identifiers `model.OPL_BLOCK_EVENTS`
and `model.OPL_BLOCK_HEADER` (the `model` constants are not under src/).
They are distinct fixed list ids; no claim depends on their numeric values. -/
def OPL_BLOCK_EVENTS : Int := -1

/-- Modelled from the spec: see `OPL_BLOCK_EVENTS`. -/
def OPL_BLOCK_HEADER : Int := -2

/-- One logical operation (`model.Op`), restricted to the fields the embedded
code reads or writes.  `power` models `op.Raw.Meta().Power()`; `hasParams`
models `len(op.Parameters) > 0`; `txDestZero` models
`tezos.ZeroAddress.Equal(tx.Destination)` and `txDestIsContract` models
`tx.Destination.IsContract()` for the raw transaction behind the op. -/
structure Op where
  opN : Int := 0
  opL : Int := 0
  opP : Int := 0
  type : OpType := .other
  isSuccess : Bool := false
  isEvent : Bool := false
  isInternal : Bool := false
  isContract : Bool := false
  isStorageUpdate : Bool := false
  senderId : Nat := 0
  receiverId : Nat := 0
  fee : Int := 0
  reward : Int := 0
  deposit : Int := 0
  burned : Int := 0
  volume : Int := 0
  gasLimit : Int := 0
  gasUsed : Int := 0
  storagePaid : Int := 0
  power : Int := 0
  hasParams : Bool := false
  txDestZero : Bool := false
  txDestIsContract : Bool := false
  entrypoint : Int := 0
  storage : Option Nat := none
  storageHash : Nat := 0
  bigmapIds : List Int := []
  deriving DecidableEq, Repr

/-- Flow type tag (`model.FlowType...`), restricted to the constructors the
implicit-event builder dispatches on. -/
inductive FlowType where
  | invoice
  | baking
  | internal
  | nonceRevelation
  | bonus
  | reward
  | deposit
  | subsidy
  | other
  deriving DecidableEq, Repr

/-- Flow category tag (`model.FlowCategory...`). -/
inductive FlowCategory where
  | deposits
  | rewards
  | fees
  | balance
  | other
  deriving DecidableEq, Repr

/-- One balance movement (`model.Flow`), restricted to the fields
`AppendImplicitEvents` reads. -/
structure Flow where
  opN : Int := 0
  accountId : Nat := 0
  operation : FlowType := .other
  category : FlowCategory := .other
  amountIn : Int := 0
  amountOut : Int := 0
  isFee : Bool := false
  isBurned : Bool := false
  isUnfrozen : Bool := false
  deriving DecidableEq, Repr

instance : Inhabited Flow := ⟨{}⟩

/-- Tezos address (`tezos.Address`), abstracted to an identifying tag plus
the result of `IsValid()`. -/
structure Address where
  valid : Bool := false
  tag : Nat := 0
  deriving DecidableEq, Repr

/-- Persistent account entity (`model.Account`), restricted to the fields
read by `Block.Update` (dirty/new/funded flags, `LastSeen`) and by the
implicit-block-op builder (`RowId`, `Address`, `IsContract`). -/
structure Account where
  rowId : Nat := 0
  address : Address := {}
  isBaker : Bool := false
  isContract : Bool := false
  isNew : Bool := false
  isDirty : Bool := false
  isFunded : Bool := false
  wasFunded : Bool := false
  lastSeen : Int := 0
  deriving DecidableEq, Repr

/-- Baker entity (`model.Baker`): wraps an `Account`; `Block.Update` only
reads the wrapped account. -/
structure Baker where
  account : Account := {}
  deriving DecidableEq, Repr

/-- Block model (`model.Block`), restricted to the fields the embedded code
reads or writes.  `paramsVersion` models `b.Params.Version`; `chain` and
`supply` stand for the running `Chain` and `Supply` snapshots that
`NewBlock` copies by value from the parent; `timestamp` is in whole
seconds.  The Go struct holds a live `Parent *Block` pointer valid during
construction; here the parent block is passed alongside wherever the code
dereferences it. -/
structure Block where
  rowId : Nat := 0
  parentId : Nat := 0
  hash : Nat := 0
  hashValid : Bool := false
  height : Int := 0
  cycle : Int := 0
  timestamp : Int := 0
  solvetime : Int := 0
  version : Int := 0
  round : Int := 0
  nonce : Nat := 0
  votingPeriodKind : Int := 0
  paramsVersion : Int := 0
  lbEscapeVote : Int := 0
  lbEscapeEma : Int := 0
  nSlotsEndorsed : Int := 0
  nOpsApplied : Int := 0
  nOpsFailed : Int := 0
  nContractCalls : Int := 0
  nRollupCalls : Int := 0
  nEvents : Int := 0
  nTx : Int := 0
  volume : Int := 0
  fee : Int := 0
  reward : Int := 0
  deposit : Int := 0
  activatedSupply : Int := 0
  burnedSupply : Int := 0
  mintedSupply : Int := 0
  seenAccounts : Int := 0
  newAccounts : Int := 0
  newContracts : Int := 0
  clearedAccounts : Int := 0
  fundedAccounts : Int := 0
  gasLimit : Int := 0
  gasUsed : Int := 0
  storagePaid : Int := 0
  chain : Int := 0
  supply : Int := 0
  ops : List Op := []
  flows : List Flow := []
  hasProposals : Bool := false
  hasBallots : Bool := false
  hasSeeds : Bool := false

/-- Next free position in block (`Block.NextN`): one past the last op's
`OpN`, or `0` for an empty op list. -/
def nextN (ops : List Op) : Int :=
  match ops.getLast? with
  | some o => o.opN + 1
  | none => 0

/-- Positioning reference for a new op (`model.OpRef`): position in block,
list id, position in list, and the op type chosen for the new op. -/
structure OpRef where
  n : Int := 0
  l : Int := 0
  p : Int := 0
  kind : OpType := .other
  deriving DecidableEq, Repr

/-- Modelled from the spec: `model.NewEventOp` (etl/model, not under src/)
allocates a fresh synthetic event Op: position and type are copied from the
`OpRef`, the event account becomes the receiver, the op is a successful
event, and every monetary field starts at zero. -/
def newEventOp (accountId : Nat) (id : OpRef) : Op :=
  { opN := id.n, opL := id.l, opP := id.p, type := id.kind,
    receiverId := accountId, isSuccess := true, isEvent := true }

/-- One iteration of the op loop of `Block.Update` (block.go lines 397-508):
the accumulator carries the block under mutation and the local
`endorsedSlots` counter. -/
def opStep (x : Block × Int) (op : Op) : Block × Int :=
  let b := x.1
  let slots := x.2
  let b := { b with gasLimit := b.gasLimit + op.gasLimit,
                    gasUsed := b.gasUsed + op.gasUsed,
                    storagePaid := b.storagePaid + op.storagePaid }
  let b :=
    if op.isSuccess then
      if op.isEvent then { b with nEvents := b.nEvents + 1 }
      else { b with nOpsApplied := b.nOpsApplied + 1 }
    else { b with nOpsFailed := b.nOpsFailed + 1 }
  match op.type with
  | .bake =>
      ({ b with mintedSupply := b.mintedSupply + op.reward,
                reward := b.reward + op.reward,
                deposit := b.deposit + op.deposit }, slots)
  | .bonus =>
      ({ b with mintedSupply := b.mintedSupply + op.reward,
                reward := b.reward + op.reward }, slots)
  | .reward =>
      ({ b with mintedSupply := b.mintedSupply + op.reward,
                burnedSupply := b.burnedSupply + op.burned }, slots)
  | .endorsement =>
      ({ b with mintedSupply := b.mintedSupply + op.reward }, slots + op.power)
  | .nonceRevelation =>
      ({ b with hasSeeds := true,
                mintedSupply := b.mintedSupply + op.reward }, slots)
  | .airdrop =>
      ({ b with mintedSupply := b.mintedSupply + op.reward }, slots)
  | .invoice =>
      ({ b with mintedSupply := b.mintedSupply + op.reward }, slots)
  | .subsidy =>
      ({ b with mintedSupply := b.mintedSupply + op.reward }, slots)
  | .activation =>
      (if op.isSuccess then
        { b with activatedSupply := b.activatedSupply + op.volume,
                 volume := b.volume + op.volume }
       else b, slots)
  | .doubleBaking =>
      ({ b with burnedSupply := b.burnedSupply + op.burned }, slots)
  | .doubleEndorsement =>
      ({ b with burnedSupply := b.burnedSupply + op.burned }, slots)
  | .doublePreendorsement =>
      ({ b with burnedSupply := b.burnedSupply + op.burned }, slots)
  | .seedSlash =>
      let b := { b with burnedSupply := b.burnedSupply + op.burned }
      (if 12 ≤ b.paramsVersion then
        { b with mintedSupply := b.mintedSupply + op.reward }
       else b, slots)
  | .transaction =>
      let b := { b with fee := b.fee + op.fee,
                        burnedSupply := b.burnedSupply + op.burned,
                        mintedSupply := b.mintedSupply + op.reward }
      let b :=
        if op.isSuccess ∧ ¬op.isEvent then
          let b :=
            if op.txDestZero then { b with burnedSupply := b.burnedSupply + op.volume }
            else { b with volume := b.volume + op.volume }
          let b :=
            if ¬op.isInternal ∧ op.txDestIsContract ∧ op.hasParams then
              { b with nContractCalls := b.nContractCalls + 1 }
            else b
          if ¬op.isInternal then { b with nTx := b.nTx + 1 } else b
        else b
      (b, slots)
  | .origination =>
      let b := { b with fee := b.fee + op.fee,
                        burnedSupply := b.burnedSupply + op.burned }
      (if op.isSuccess then { b with volume := b.volume + op.volume } else b, slots)
  | .rollupOrigination =>
      let b := { b with fee := b.fee + op.fee,
                        burnedSupply := b.burnedSupply + op.burned }
      (if op.isSuccess then { b with volume := b.volume + op.volume } else b, slots)
  | .delegation =>
      ({ b with fee := b.fee + op.fee }, slots)
  | .reveal =>
      ({ b with fee := b.fee + op.fee }, slots)
  | .depositsLimit =>
      ({ b with fee := b.fee + op.fee }, slots)
  | .registerConstant =>
      ({ b with fee := b.fee + op.fee,
                burnedSupply := b.burnedSupply + op.burned }, slots)
  | .proposal =>
      ({ b with hasProposals := true }, slots)
  | .ballot =>
      ({ b with hasBallots := true }, slots)
  | .rollupTransaction =>
      let b := { b with fee := b.fee + op.fee,
                        burnedSupply := b.burnedSupply + op.burned }
      (if op.isSuccess then
        { b with volume := b.volume + op.volume,
                 nRollupCalls := b.nRollupCalls + 1 }
       else b, slots)
  | _ => (b, slots)

/-- One iteration of the account loop of `Block.Update` (lines 515-539).
When the account is new, dirty and a baker the Go loop `continue`s, which
also skips the `LastSeen` bookkeeping for that account. -/
def accStep (b : Block) (acc : Account) : Block :=
  if acc.isNew ∧ acc.isDirty ∧ acc.isBaker then b
  else
    let b :=
      if acc.isNew ∧ acc.isDirty then
        if acc.isContract then { b with newContracts := b.newContracts + 1 }
        else { b with newAccounts := b.newAccounts + 1 }
      else b
    if acc.lastSeen = b.height then
      let b := { b with seenAccounts := b.seenAccounts + 1 }
      if ¬acc.isFunded then
        if acc.wasFunded then { b with clearedAccounts := b.clearedAccounts + 1 } else b
      else
        if ¬acc.wasFunded then { b with fundedAccounts := b.fundedAccounts + 1 } else b
    else b

/-- One iteration of the baker loop of `Block.Update` (lines 542-559). -/
def bakerStep (b : Block) (bkr : Baker) : Block :=
  let acc := bkr.account
  let b := if acc.isNew then { b with newAccounts := b.newAccounts + 1 } else b
  if acc.lastSeen = b.height then
    let b := { b with seenAccounts := b.seenAccounts + 1 }
    if ¬acc.isFunded then
      if acc.wasFunded then { b with clearedAccounts := b.clearedAccounts + 1 } else b
    else
      if ¬acc.wasFunded then { b with fundedAccounts := b.fundedAccounts + 1 } else b
  else b

/-- Embedding of `Block.Update` (block.go lines 371-560).  The Go method
mutates `b` and, through the `b.Parent` pointer, the parent block; here the
parent is passed explicitly and the pair (receiver, parent) is returned.
The account and baker arguments are Go maps whose iteration order is
arbitrary; they are modelled as lists. -/
def Block.update (b : Block) (parent : Option Block)
    (accounts : List Account) (bakers : List Baker) : Block × Option Block :=
  let b := { b with
    nOpsApplied := 0, nOpsFailed := 0, nEvents := 0, nContractCalls := 0,
    nRollupCalls := 0, nTx := 0, volume := 0, fee := 0, reward := 0,
    deposit := 0, activatedSupply := 0, burnedSupply := 0, mintedSupply := 0,
    seenAccounts := 0, newAccounts := 0, newContracts := 0,
    clearedAccounts := 0, fundedAccounts := 0, gasLimit := 0, gasUsed := 0,
    storagePaid := 0 }
  let r := b.ops.foldl opStep (b, 0)
  let b := r.1
  let endorsedSlots := r.2
  let parent := parent.map fun p => { p with nSlotsEndorsed := endorsedSlots }
  let b := accounts.foldl accStep b
  let b := bakers.foldl bakerStep b
  (b, parent)

/-- The aggregate counters that `Block.Update` resets and recomputes
(block.go lines 372-393): a projection of `Block` used to state that the
recomputation is independent of the previous counter values. -/
structure Counters where
  nOpsApplied : Int := 0
  nOpsFailed : Int := 0
  nContractCalls : Int := 0
  nRollupCalls : Int := 0
  nEvents : Int := 0
  nTx : Int := 0
  volume : Int := 0
  fee : Int := 0
  reward : Int := 0
  deposit : Int := 0
  activatedSupply : Int := 0
  burnedSupply : Int := 0
  mintedSupply : Int := 0
  seenAccounts : Int := 0
  newAccounts : Int := 0
  newContracts : Int := 0
  clearedAccounts : Int := 0
  fundedAccounts : Int := 0
  gasLimit : Int := 0
  gasUsed : Int := 0
  storagePaid : Int := 0
  deriving DecidableEq

/-- Projection of a block onto the counters `Block.Update` recomputes. -/
def Block.counters (b : Block) : Counters :=
  { nOpsApplied := b.nOpsApplied, nOpsFailed := b.nOpsFailed,
    nContractCalls := b.nContractCalls, nRollupCalls := b.nRollupCalls,
    nEvents := b.nEvents, nTx := b.nTx, volume := b.volume, fee := b.fee,
    reward := b.reward, deposit := b.deposit,
    activatedSupply := b.activatedSupply, burnedSupply := b.burnedSupply,
    mintedSupply := b.mintedSupply, seenAccounts := b.seenAccounts,
    newAccounts := b.newAccounts, newContracts := b.newContracts,
    clearedAccounts := b.clearedAccounts, fundedAccounts := b.fundedAccounts,
    gasLimit := b.gasLimit, gasUsed := b.gasUsed,
    storagePaid := b.storagePaid }

/-- Overwrite a block's aggregate counters (used to state that `Update`
does not depend on their previous values). -/
def Block.setCounters (b : Block) (c : Counters) : Block :=
  { b with
    nOpsApplied := c.nOpsApplied, nOpsFailed := c.nOpsFailed,
    nContractCalls := c.nContractCalls, nRollupCalls := c.nRollupCalls,
    nEvents := c.nEvents, nTx := c.nTx, volume := c.volume, fee := c.fee,
    reward := c.reward, deposit := c.deposit,
    activatedSupply := c.activatedSupply, burnedSupply := c.burnedSupply,
    mintedSupply := c.mintedSupply, seenAccounts := c.seenAccounts,
    newAccounts := c.newAccounts, newContracts := c.newContracts,
    clearedAccounts := c.clearedAccounts, fundedAccounts := c.fundedAccounts,
    gasLimit := c.gasLimit, gasUsed := c.gasUsed,
    storagePaid := c.storagePaid }

/-- Action of `opStep` on the counter projection alone, with the fields
`opStep` reads from the block but never writes (`height` is unused here,
`paramsVersion` gates the seed-slash minting) passed as parameters. -/
def cStep (pv : Int) (x : Counters × Int) (op : Op) : Counters × Int :=
  let c := x.1
  let slots := x.2
  let c := { c with gasLimit := c.gasLimit + op.gasLimit,
                    gasUsed := c.gasUsed + op.gasUsed,
                    storagePaid := c.storagePaid + op.storagePaid }
  let c :=
    if op.isSuccess then
      if op.isEvent then { c with nEvents := c.nEvents + 1 }
      else { c with nOpsApplied := c.nOpsApplied + 1 }
    else { c with nOpsFailed := c.nOpsFailed + 1 }
  match op.type with
  | .bake =>
      ({ c with mintedSupply := c.mintedSupply + op.reward,
                reward := c.reward + op.reward,
                deposit := c.deposit + op.deposit }, slots)
  | .bonus =>
      ({ c with mintedSupply := c.mintedSupply + op.reward,
                reward := c.reward + op.reward }, slots)
  | .reward =>
      ({ c with mintedSupply := c.mintedSupply + op.reward,
                burnedSupply := c.burnedSupply + op.burned }, slots)
  | .endorsement =>
      ({ c with mintedSupply := c.mintedSupply + op.reward }, slots + op.power)
  | .nonceRevelation =>
      ({ c with mintedSupply := c.mintedSupply + op.reward }, slots)
  | .airdrop =>
      ({ c with mintedSupply := c.mintedSupply + op.reward }, slots)
  | .invoice =>
      ({ c with mintedSupply := c.mintedSupply + op.reward }, slots)
  | .subsidy =>
      ({ c with mintedSupply := c.mintedSupply + op.reward }, slots)
  | .activation =>
      (if op.isSuccess then
        { c with activatedSupply := c.activatedSupply + op.volume,
                 volume := c.volume + op.volume }
       else c, slots)
  | .doubleBaking =>
      ({ c with burnedSupply := c.burnedSupply + op.burned }, slots)
  | .doubleEndorsement =>
      ({ c with burnedSupply := c.burnedSupply + op.burned }, slots)
  | .doublePreendorsement =>
      ({ c with burnedSupply := c.burnedSupply + op.burned }, slots)
  | .seedSlash =>
      let c := { c with burnedSupply := c.burnedSupply + op.burned }
      (if 12 ≤ pv then
        { c with mintedSupply := c.mintedSupply + op.reward }
       else c, slots)
  | .transaction =>
      let c := { c with fee := c.fee + op.fee,
                        burnedSupply := c.burnedSupply + op.burned,
                        mintedSupply := c.mintedSupply + op.reward }
      let c :=
        if op.isSuccess ∧ ¬op.isEvent then
          let c :=
            if op.txDestZero then { c with burnedSupply := c.burnedSupply + op.volume }
            else { c with volume := c.volume + op.volume }
          let c :=
            if ¬op.isInternal ∧ op.txDestIsContract ∧ op.hasParams then
              { c with nContractCalls := c.nContractCalls + 1 }
            else c
          if ¬op.isInternal then { c with nTx := c.nTx + 1 } else c
        else c
      (c, slots)
  | .origination =>
      let c := { c with fee := c.fee + op.fee,
                        burnedSupply := c.burnedSupply + op.burned }
      (if op.isSuccess then { c with volume := c.volume + op.volume } else c, slots)
  | .rollupOrigination =>
      let c := { c with fee := c.fee + op.fee,
                        burnedSupply := c.burnedSupply + op.burned }
      (if op.isSuccess then { c with volume := c.volume + op.volume } else c, slots)
  | .delegation =>
      ({ c with fee := c.fee + op.fee }, slots)
  | .reveal =>
      ({ c with fee := c.fee + op.fee }, slots)
  | .depositsLimit =>
      ({ c with fee := c.fee + op.fee }, slots)
  | .registerConstant =>
      ({ c with fee := c.fee + op.fee,
                burnedSupply := c.burnedSupply + op.burned }, slots)
  | .proposal => (c, slots)
  | .ballot => (c, slots)
  | .rollupTransaction =>
      let c := { c with fee := c.fee + op.fee,
                        burnedSupply := c.burnedSupply + op.burned }
      (if op.isSuccess then
        { c with volume := c.volume + op.volume,
                 nRollupCalls := c.nRollupCalls + 1 }
       else c, slots)
  | _ => (c, slots)

/-- Action of `accStep` on the counter projection, with the block height
passed as a parameter. -/
def caStep (h : Int) (c : Counters) (acc : Account) : Counters :=
  if acc.isNew ∧ acc.isDirty ∧ acc.isBaker then c
  else
    let c :=
      if acc.isNew ∧ acc.isDirty then
        if acc.isContract then { c with newContracts := c.newContracts + 1 }
        else { c with newAccounts := c.newAccounts + 1 }
      else c
    if acc.lastSeen = h then
      let c := { c with seenAccounts := c.seenAccounts + 1 }
      if ¬acc.isFunded then
        if acc.wasFunded then { c with clearedAccounts := c.clearedAccounts + 1 } else c
      else
        if ¬acc.wasFunded then { c with fundedAccounts := c.fundedAccounts + 1 } else c
    else c

/-- Action of `bakerStep` on the counter projection. -/
def cbStep (h : Int) (c : Counters) (bkr : Baker) : Counters :=
  let acc := bkr.account
  let c := if acc.isNew then { c with newAccounts := c.newAccounts + 1 } else c
  if acc.lastSeen = h then
    let c := { c with seenAccounts := c.seenAccounts + 1 }
    if ¬acc.isFunded then
      if acc.wasFunded then { c with clearedAccounts := c.clearedAccounts + 1 } else c
    else
      if ¬acc.wasFunded then { c with fundedAccounts := c.fundedAccounts + 1 } else c
  else c

/-- The counters `Block.Update` produces, as a pure function of block
height, protocol version, the op list and the account/baker collections:
the fold the spec describes, starting from all-zero counters. -/
def counterSpec (h pv : Int) (ops : List Op) (accounts : List Account)
    (bakers : List Baker) : Counters :=
  bakers.foldl (cbStep h)
    (accounts.foldl (caStep h) (ops.foldl (cStep pv) ({}, 0)).1)

/-- Total endorsement power of a block's endorsement ops: the value
`Block.Update` accumulates in its local `endorsedSlots` variable. -/
def endorsedSum (ops : List Op) : Int :=
  ops.foldl (fun s op => s + if op.type = .endorsement then op.power else 0) 0

/-- The builder-owned slice of block state that `AppendImplicitEvents` and
`AppendImplicitBlockOps` extend: the block's op and flow lists plus the
row ids registered in the builder's contract map (`b.conMap`). -/
structure BuildState where
  ops : List Op := []
  flows : List Flow := []
  contracts : List Nat := []
  deriving DecidableEq, Repr

/-- New value of the sparse op slot `ops[f.OpN]` after processing one flow
in `AppendImplicitEvents` (op_implicit.go lines 44-159): the Go loop body
mutates only that slot, as a function of its current value, the flow, and
the protocol version (`b.block.Params.Version`). -/
def slotUpdate (version : Int) (f : Flow) (cur : Option Op) : Option Op :=
  let id : OpRef := { n := f.opN, l := OPL_BLOCK_EVENTS, p := f.opN }
  match f.operation with
  | .invoice =>
      if 9 ≤ version then
        match cur with
        | none =>
            some { newEventOp f.accountId { id with kind := .invoice } with
                   senderId := f.accountId, reward := f.amountIn }
        | some o => some o
      else cur
  | .baking =>
      let o :=
        match cur with
        | none => { newEventOp f.accountId { id with kind := .bake } with
                    senderId := f.accountId }
        | some o => o
      some (match f.category with
        | .deposits => { o with deposit := f.amountIn }
        | .rewards => { o with reward := f.amountIn }
        | .balance =>
            if f.isFee then { o with fee := o.fee + f.amountIn }
            else { o with reward := o.reward + f.amountIn }
        | _ => o)
  | .internal =>
      if f.isUnfrozen then
        let o :=
          match cur with
          | none => { newEventOp f.accountId { id with kind := .unfreeze } with
                      senderId := f.accountId }
          | some o => o
        some (match f.category with
          | .deposits => { o with deposit := o.deposit + f.amountOut }
          | .rewards => { o with reward := o.reward + f.amountOut }
          | .fees => { o with fee := o.fee + f.amountOut }
          | _ => o)
      else cur
  | .nonceRevelation =>
      if f.isBurned then
        let o :=
          match cur with
          | none => newEventOp f.accountId { id with kind := .seedSlash }
          | some o => o
        some (match f.category with
          | .rewards => { o with reward := o.reward + f.amountOut,
                                 burned := o.burned + f.amountOut }
          | .fees => { o with fee := o.fee + f.amountOut,
                              burned := o.burned + f.amountOut }
          | .balance => { o with reward := o.reward + f.amountIn,
                                 burned := o.burned + f.amountOut }
          | _ => o)
      else cur
  | .bonus =>
      match cur with
      | none =>
          some { newEventOp f.accountId { id with kind := .bonus } with
                 senderId := f.accountId, reward := f.amountIn }
      | some o => some { o with reward := o.reward + f.amountIn }
  | .reward =>
      if f.isBurned then
        match cur with
        | none =>
            some { newEventOp f.accountId { id with kind := .reward } with
                   senderId := f.accountId, reward := f.amountIn,
                   burned := f.amountIn }
        | some o => some o
      else
        match cur with
        | none =>
            some { newEventOp f.accountId { id with kind := .reward } with
                   senderId := f.accountId, reward := f.amountIn }
        | some o => some o
  | .deposit =>
      if f.category = .deposits then
        match cur with
        | none =>
            some { newEventOp f.accountId { id with kind := .deposit } with
                   senderId := f.accountId, deposit := f.amountIn }
        | some o => some o
      else cur
  | .subsidy => cur
  | .other => cur

/-- One iteration of the flow loop of `AppendImplicitEvents`: flows with an
out-of-range position are logged and skipped, otherwise the slot at the
flow's position-in-block is rewritten by `slotUpdate`. -/
def flowStep (version : Int) (ops : List (Option Op)) (f : Flow) : List (Option Op) :=
  if f.opN < 0 ∨ (ops.length : Int) ≤ f.opN then ops
  else ops.set f.opN.toNat (slotUpdate version f (ops.getD f.opN.toNat none))

/-- Embedding of `Builder.AppendImplicitEvents` (op_implicit.go lines
23-170).  The flow list produced by `b.NewImplicitFlows()` is passed as an
argument.  An empty flow list returns immediately; otherwise the flows are
appended to the block, a sparse op array of size `last.OpN+1` is filled by
the flow loop, and its non-nil slots are compacted onto the block's op
list in position order. -/
def appendImplicitEvents (version : Int) (st : BuildState) (flows : List Flow) :
    BuildState :=
  match flows with
  | [] => st
  | f :: fs =>
    let st := { st with flows := st.flows ++ (f :: fs) }
    let size := (((f :: fs).getLastD f).opN + 1).toNat
    let slots := (f :: fs).foldl (flowStep version) (List.replicate size none)
    { st with ops := st.ops ++ slots.filterMap id }

/-- Michelson script (`micheline.Script`), abstracted to the bigmap ids the
origination case of `AppendImplicitBlockOps` walks (`Script.Bigmaps()`). -/
structure Script where
  bigmaps : List Int := []
  deriving DecidableEq, Repr

/-- Contract entity (`model.Contract`), abstracted to its row id and to the
boolean result of `dCon.Update(o, params)`. -/
structure Contract where
  rowId : Nat := 0
  updatesStorage : Bool := false
  deriving DecidableEq, Repr

/-- Kind tag of one entry of `Metadata.ImplicitOperationsResults`; the
switch in `AppendImplicitBlockOps` handles origination and transaction. -/
inductive ImplicitResultKind where
  | origination
  | transaction
  | other
  deriving DecidableEq, Repr

/-- Kind of a raw balance update (`v.Kind`): the origination case skips the
`minted` and `burned` kinds. -/
inductive BalanceUpdateKind where
  | contract
  | minted
  | burned
  | other
  deriving DecidableEq, Repr

/-- One raw balance update of an implicit operation result. -/
structure BalanceUpdate where
  kind : BalanceUpdateKind := .contract
  address : Address := {}
  amount : Int := 0
  deriving DecidableEq, Repr

/-- One entry of `Metadata.ImplicitOperationsResults`.  `originatedContract`
models `op.OriginatedContracts[0]` (the code expects a single address);
`storage` abstracts the micheline storage prim, with `IsValid()` modelled
as `isSome`. -/
structure ImplicitResult where
  kind : ImplicitResultKind := .other
  originatedContract : Address := {}
  script : Option Script := none
  balanceUpdates : List BalanceUpdate := []
  gas : Int := 0
  paidStorageSizeDiff : Int := 0
  storage : Option Nat := none
  deriving DecidableEq, Repr

/-- Errors of `AppendImplicitBlockOps`, as structured values: the Go code
builds them with `Errorf`, embedding the result kind, `b.block.NextN()` at
error time, and the offending address (plus the row id for contract-load
failures) into the message. -/
inductive BuildError where
  | missingOriginated (kind : ImplicitResultKind) (n : Int) (address : Address)
  | scriptLoad (kind : ImplicitResultKind) (n : Int) (address : Address)
  | missingAccount (kind : ImplicitResultKind) (n : Int) (address : Address)
  | contractLoad (kind : ImplicitResultKind) (n : Int) (rowId : Nat) (address : Address)
  deriving DecidableEq, Repr

/-- Modelled from the spec: the builder's lookup and fetch collaborators
(`Builder.AccountByAddress`, `rpc.GetContractScript`,
`Builder.LoadContractByAccountId` are not under src/): resolving an
already-known account by address may fail, fetching a script from the node
may fail, loading a contract by account id may fail. -/
structure BuilderEnv where
  accountByAddress : Address → Option Account
  getContractScript : Address → Option Script
  loadContractByAccountId : Nat → Option Contract

/-- Modelled from the spec: `prim.Hash64()`, an opaque 64-bit hash of the
storage value, abstracted to the identity on the abstracted value. -/
def hash64 (s : Option Nat) : Nat := s.getD 0

/-- Modelled from the spec: `model.MapOpType` maps the raw operation kind
to the model op type tag. -/
def mapOpType : ImplicitResultKind → OpType
  | .origination => .origination
  | .transaction => .transaction
  | .other => .other

/-- Modelled from the spec: `Builder.NewSubsidyFlow` (not under src/)
records one balance movement crediting `amount` to the destination account
at the op position carried by `id`. -/
def newSubsidyFlow (dst : Account) (amount : Int) (id : OpRef) : Flow :=
  { opN := id.n, accountId := dst.rowId, operation := .subsidy,
    category := .balance, amountIn := amount }

/-- Inner loop of the `OpTypeTransaction` case of `AppendImplicitBlockOps`
(op_implicit.go lines 252-282): one op per balance update with a valid
address, all rebuilt from the single `OpRef` computed once for the whole
implicit result.  The `n` recorded in an error is re-read from the current
op list because `Errorf` invokes `b.block.NextN()` at error time. -/
def doTxUpdates (env : BuilderEnv) (r : ImplicitResult) (id : OpRef) :
    List BalanceUpdate → BuildState → Except BuildError BuildState
  | [], st => .ok st
  | v :: rest, st =>
    if ¬v.address.valid then doTxUpdates env r id rest st
    else
      match env.accountByAddress v.address with
      | none => .error (.missingAccount r.kind (nextN st.ops) v.address)
      | some dst =>
        match env.loadContractByAccountId dst.rowId with
        | none => .error (.contractLoad r.kind (nextN st.ops) dst.rowId v.address)
        | some dCon =>
          let id := { id with kind := OpType.subsidy }
          let o := newEventOp dst.rowId id
          let o := { o with isContract := true, volume := v.amount,
                            reward := v.amount, gasUsed := r.gas,
                            storagePaid := r.paidStorageSizeDiff,
                            entrypoint := 1, storage := r.storage,
                            storageHash := hash64 r.storage,
                            isStorageUpdate := dCon.updatesStorage }
          let st := { st with ops := st.ops ++ [o] }
          let st :=
            if 0 < o.volume then
              { st with flows := st.flows ++ [newSubsidyFlow dst o.volume id] }
            else st
          doTxUpdates env r id rest st

/-- Processing of one implicit operation result by `AppendImplicitBlockOps`
(op_implicit.go lines 176-283): the position reference `id` is computed
once from `NextN` for the whole result. -/
def doImplicitResult (env : BuilderEnv) (st : BuildState) (r : ImplicitResult) :
    Except BuildError BuildState :=
  let n := nextN st.ops
  let id : OpRef := { n := n, l := OPL_BLOCK_HEADER, p := n }
  match r.kind with
  | .origination =>
    match env.accountByAddress r.originatedContract with
    | none => .error (.missingOriginated r.kind (nextN st.ops) r.originatedContract)
    | some dst =>
      let scriptE : Except BuildError Script :=
        match r.script with
        | some s => .ok s
        | none =>
          match env.getContractScript dst.address with
          | some s => .ok s
          | none => .error (.scriptLoad r.kind (nextN st.ops) dst.address)
      match scriptE with
      | .error e => .error e
      | .ok script =>
        let id := { id with kind := mapOpType r.kind }
        let o := newEventOp dst.rowId id
        let o := { o with isContract := true, gasUsed := r.gas,
                          storagePaid := r.paidStorageSizeDiff }
        let o :=
          if r.storage.isSome then
            { o with storage := r.storage, storageHash := hash64 r.storage,
                     isStorageUpdate := true }
          else o
        let o := { o with bigmapIds := script.bigmaps }
        let acc := r.balanceUpdates.foldl
          (fun (acc : Op × List Flow) v =>
            if v.kind = BalanceUpdateKind.minted ∨ v.kind = BalanceUpdateKind.burned
            then acc
            else ({ acc.1 with volume := acc.1.volume + v.amount },
                  acc.2 ++ [newSubsidyFlow dst v.amount id]))
          (o, [])
        .ok { st with flows := st.flows ++ acc.2,
                      ops := st.ops ++ [acc.1],
                      contracts := st.contracts ++ [dst.rowId] }
  | .transaction => doTxUpdates env r id r.balanceUpdates st
  | .other => .ok st

/-- Embedding of `Builder.AppendImplicitBlockOps` (op_implicit.go lines
175-286): fold over `Metadata.ImplicitOperationsResults`, aborting on the
first error. -/
def appendImplicitBlockOps (env : BuilderEnv) (results : List ImplicitResult)
    (st : BuildState) : Except BuildError BuildState :=
  match results with
  | [] => .ok st
  | r :: rest =>
    match doImplicitResult env st r with
    | .error e => .error e
    | .ok st2 => appendImplicitBlockOps env rest st2

/-- Error cases of `NewBlock`, as structured values. -/
inductive InitError where
  | missingRpcBlock
  deriving DecidableEq, Repr

/-- Raw data bundle (`rpc.Bundle`), restricted to the fields `NewBlock`
reads.  `hasBlock` models `tz.Block != nil`; `powNonce` is the big-endian
64-bit value of the proof-of-work nonce when it has at least 8 bytes;
`votingPeriodValid` models `GetVotingPeriodKind().IsValid()`. -/
structure Bundle where
  hasBlock : Bool := true
  level : Int := 0
  cycle : Int := 0
  timestamp : Int := 0
  hash : Nat := 0
  version : Int := 0
  priority : Int := 0
  payloadRound : Int := 0
  lbVote : Int := 0
  lbEma : Int := 0
  powNonce : Option Nat := none
  votingPeriodKind : Int := 0
  votingPeriodValid : Bool := true
  paramsVersion : Int := 0
  chain : Int := 0
  supply : Int := 0
  deriving DecidableEq, Repr

/-- Value of `tezos.VotingPeriodProposal`, the fallback voting period kind
for a genesis block with no parent. -/
def votingPeriodProposal : Int := 1

/-- Embedding of `AllocBlock` with the pool modelled as the number of
pooled blocks: `sync.Pool.Get` hands out a pooled object when available
and otherwise a fresh zero `Block`.  A pooled object was always returned
through `Free`, which calls `Reset` first, so every handed-out block is
the zero block. -/
def allocBlock : Nat → Nat × Block
  | 0 => (0, {})
  | n + 1 => (n, {})

/-- Embedding of `Block.Reset` (block.go lines 304-369): every field back
to its zero value, op and flow lists emptied. -/
def Block.reset (_ : Block) : Block := {}

/-- Embedding of `Block.Free` (block.go lines 278-281): reset the block
and put it back in the pool. -/
def Block.free (b : Block) (pool : Nat) : Nat × Block :=
  (pool + 1, b.reset)

/-- Embedding of `NewBlock` (block.go lines 111-172), returning the pool
state next to the result so the pooled-object lifecycle is observable.
`tz = none` models a nil bundle. -/
def newBlock (pool : Nat) (tz : Option Bundle) (parent : Option Block) :
    Nat × Except InitError Block :=
  let alloc := allocBlock pool
  let pool := alloc.1
  let b := alloc.2
  match tz with
  | none => (pool, .error .missingRpcBlock)
  | some tz =>
    if ¬tz.hasBlock then (pool, .error .missingRpcBlock)
    else
      let b := { b with paramsVersion := tz.paramsVersion,
                        height := tz.level, cycle := tz.cycle,
                        timestamp := tz.timestamp, hash := tz.hash,
                        version := tz.version,
                        round := tz.priority + tz.payloadRound,
                        lbEscapeVote := tz.lbVote, lbEscapeEma := tz.lbEma }
      let b : Block :=
        match tz.powNonce with
        | some nn => { b with nonce := nn }
        | none => b
      let b := if b.height ≤ (1 : Int) then { b with version := b.version - 1 } else b
      let b := { b with votingPeriodKind := tz.votingPeriodKind }
      let b :=
        if ¬tz.votingPeriodValid then
          match parent with
          | some p => { b with votingPeriodKind := p.votingPeriodKind }
          | none => { b with votingPeriodKind := votingPeriodProposal }
        else b
      let b :=
        match parent with
        | some p =>
            { b with parentId := p.rowId,
                     solvetime := max 0 (b.timestamp - p.timestamp),
                     chain := p.chain, supply := p.supply }
        | none => b
      (pool, .ok b)

/-- Protocol parameters (`tezos.Params`), abstracted: cycle arithmetic
lives in the external tzgo library, so `cycleStartHeight` and
`isCycleStart` are opaque functions of the height. -/
structure Params where
  preservedCycles : Int := 0
  cycleStartHeight : Int → Int := fun _ => 0
  isCycleStart : Int → Bool := fun _ => false

/-- One request `Block.FetchRPC` issues to the node client. -/
inductive RpcCall where
  | getBlock (hash : Nat)
  | getConstants (height : Int)
  | fetchRights (height : Int) (cycle : Int)
  deriving DecidableEq, Repr

/-- The fields of `Block` that `Block.FetchRPC` reads, mirrored into a
record of their own so the fetch logic can be stated without dragging the
whole block model along: hash validity, presence of the raw bundle and of
the protocol params, height and cycle. -/
structure FetchView where
  hashValid : Bool := true
  hash : Nat := 0
  hasTZBlock : Bool := false
  hasParams : Bool := false
  height : Int := 0
  cycle : Int := 0
  deriving DecidableEq, Repr

/-- Embedding of `Block.FetchRPC` (block.go lines 193-240) with an
always-succeeding client, returning the list of node requests issued in
order.  An invalid hash errors before any request.  The missing raw block
and missing params are fetched first; then, exactly when the height is a
cycle start at or above the start of cycle 2, rights for cycle
`b.Cycle + PreservedCycles` are fetched. -/
def fetchRPC (p : Params) (b : FetchView) : Except InitError (List RpcCall) :=
  if ¬b.hashValid then .error .missingRpcBlock
  else
    let calls := if ¬b.hasTZBlock then [RpcCall.getBlock b.hash] else []
    let calls :=
      calls ++ (if ¬b.hasParams ∧ 0 < b.height then [RpcCall.getConstants b.height] else [])
    if p.cycleStartHeight 2 ≤ b.height ∧ p.isCycleStart b.height = true then
      .ok (calls ++ [RpcCall.fetchRights b.height (b.cycle + p.preservedCycles)])
    else
      .ok calls

/-- Column selector for the op-table cursor conditions built by
`StreamOpTable`. -/
inductive Field where
  | height
  | opN
  deriving DecidableEq, Repr

/-- One indexed op row, restricted to the two columns the cursor condition
touches. -/
structure OpRow where
  height : Int := 0
  opN : Int := 0
  deriving DecidableEq, Repr

/-- Query condition tree as assembled from the packdb combinators
(`pack.Lt`, `pack.Gt`, `pack.Equal`, `pack.And`, `pack.OrCondition`). -/
inductive Cond where
  | lt (fld : Field) (v : Int)
  | gt (fld : Field) (v : Int)
  | eq (fld : Field) (v : Int)
  | conj (a b : Cond)
  | disj (a b : Cond)
  deriving DecidableEq, Repr

/-- Column access for condition evaluation. -/
def fieldVal (r : OpRow) : Field → Int
  | .height => r.height
  | .opN => r.opN

/-- Evaluation of a condition tree against one row (the semantics of the
packdb combinators on the two columns involved). -/
def evalCond : Cond → OpRow → Bool
  | .lt fld v, r => decide (fieldVal r fld < v)
  | .gt fld v, r => decide (v < fieldVal r fld)
  | .eq fld v, r => decide (fieldVal r fld = v)
  | .conj a b, r => evalCond a r && evalCond b r
  | .disj a b, r => evalCond a r || evalCond b r

/-- Height half of the cursor decoding in `StreamOpTable`:
`int64(id >> 16)`. -/
def cursorHeight (id : Nat) : Int := ((id >>> 16 : Nat) : Int)

/-- Position half of the cursor decoding in `StreamOpTable`:
`int64(id & 0xFFFF)`. -/
def cursorOpN (id : Nat) : Int := ((id &&& 0xFFFF : Nat) : Int)

/-- Sort order of the streamed table. -/
inductive StreamOrder where
  | asc
  | desc
  deriving DecidableEq, Repr

/-- The cursor condition `StreamOpTable` adds for a `cursor` argument
(part_001 lines 566-588 and 941-964): strictly below the decoded pair in
descending order, strictly above it in ascending order. -/
def cursorCond (ord : StreamOrder) (id : Nat) : Cond :=
  match ord with
  | .desc =>
      .disj (.lt .height (cursorHeight id))
        (.conj (.eq .height (cursorHeight id)) (.lt .opN (cursorOpN id)))
  | .asc =>
      .disj (.gt .height (cursorHeight id))
        (.conj (.eq .height (cursorHeight id)) (.gt .opN (cursorOpN id)))

/-- The equality condition `StreamOpTable` adds for a `row_id`/`id` filter
in equal mode: height and op position both equal to the decoded halves. -/
def idFilterCond (id : Nat) : Cond :=
  .conj (.eq .height (cursorHeight id)) (.eq .opN (cursorOpN id))

/-- Pairwise distinctness of the composite op positions
`(list, position-in-list, position-in-block)` within one block. -/
def uniquePositions (ops : List Op) : Prop :=
  ops.Pairwise fun a b => ¬(a.opL = b.opL ∧ a.opP = b.opP ∧ a.opN = b.opN)

/-- Strictly increasing position-in-block order of a block's op list. -/
def opNSorted (ops : List Op) : Prop :=
  List.Chain' (fun a b => a.opN < b.opN) ops

/-- An error of `AppendImplicitBlockOps` that names an account the builder
cannot resolve: the message embeds an address for which
`AccountByAddress` finds no known account. -/
def errorNamesMissing (env : BuilderEnv) : BuildError → Prop
  | .missingOriginated _ _ a => env.accountByAddress a = none
  | .missingAccount _ _ a => env.accountByAddress a = none
  | _ => False

/-- A valid address used by the concrete missing-account scenarios. -/
def addrW : Address := { valid := true, tag := 1 }

/-- A builder environment that knows no account at all but can load
scripts and contracts. -/
def envMissing : BuilderEnv :=
  { accountByAddress := fun _ => none,
    getContractScript := fun _ => some {},
    loadContractByAccountId := fun _ => some {} }

/-- An implicit origination result for the unknown address `addrW`. -/
def rOrigW : ImplicitResult :=
  { kind := .origination, originatedContract := addrW }

/-- A balance update crediting the unknown address `addrW`. -/
def vW : BalanceUpdate := { address := addrW, amount := 4 }

/-- An implicit transaction result whose only balance update references the
unknown address `addrW`. -/
def rTxW : ImplicitResult := { kind := .transaction, balanceUpdates := [vW] }

/-- Positional uniqueness is decidable, so it can be evaluated on a
concrete op list. -/
instance uniquePositionsDecidable (ops : List Op) :
    Decidable (uniquePositions ops) := by
  unfold uniquePositions
  infer_instance

/-- Boolean form of `uniquePositions`, used to evaluate the positional
uniqueness of a concrete op list. -/
def uniquePositionsB (ops : List Op) : Bool :=
  decide (uniquePositions ops)

/-- Two known valid addresses for the duplicate-position scenario. -/
def addrX : Address := { valid := true, tag := 10 }

/-- Second known valid address, see `addrX`. -/
def addrY : Address := { valid := true, tag := 11 }

/-- A builder environment resolving `addrX` and `addrY` and always able to
load scripts and contracts. -/
def envTwo : BuilderEnv :=
  { accountByAddress := fun a =>
      if a = addrX then some { rowId := 21, address := addrX }
      else if a = addrY then some { rowId := 22, address := addrY }
      else none,
    getContractScript := fun _ => some {},
    loadContractByAccountId := fun _ => some {} }

/-- An implicit transaction result with two balance updates at distinct
valid addresses. -/
def rTwo : ImplicitResult :=
  { kind := .transaction,
    balanceUpdates := [{ address := addrX, amount := 5 },
                       { address := addrY, amount := 6 }] }

/-- An implicit origination result for the known address `addrX`. -/
def rOrigX : ImplicitResult :=
  { kind := .origination, originatedContract := addrX }

/-- The block state produced by appending `rOrigX` to an empty block under
`envTwo`. -/
def stOkX : BuildState :=
  (appendImplicitBlockOps envTwo [rOrigX] {}).toOption.getD {}

/-! Theorems. -/

theorem cursorHeight_eq_div (id : Nat) :
    cursorHeight id = ((id / 65536 : Nat) : Int) := by
  unfold cursorHeight
  norm_num [Nat.shiftRight_eq_div_pow]

theorem cursorOpN_eq_mod (id : Nat) :
    cursorOpN id = ((id % 65536 : Nat) : Int) := by
  unfold cursorOpN
  have h := Nat.and_pow_two_sub_one_eq_mod id 16
  norm_num at h
  norm_num [h]

/-- C10: the cursor and id filters of `StreamOpTable` decode a value `c` as
height `c >> 16` and op position `c & 0xFFFF`; the cursor condition keeps
exactly the rows lexicographically above the decoded pair in ascending
order and below it in descending order; and an op position of `2^16` or
more is not representable: encoded as `h * 2^16 + n` it aliases into the
height part. -/
theorem streamOpTable_cursor_semantics (id : Nat) (r : OpRow) (h n : Nat) :
    (evalCond (cursorCond .asc id) r = true ↔
      cursorHeight id < r.height ∨ (r.height = cursorHeight id ∧ cursorOpN id < r.opN)) ∧
    (evalCond (cursorCond .desc id) r = true ↔
      r.height < cursorHeight id ∨ (r.height = cursorHeight id ∧ r.opN < cursorOpN id)) ∧
    (evalCond (idFilterCond id) r = true ↔
      r.height = cursorHeight id ∧ r.opN = cursorOpN id) ∧
    (n < 2 ^ 16 →
      cursorHeight (h * 2 ^ 16 + n) = (h : Int) ∧
      cursorOpN (h * 2 ^ 16 + n) = (n : Int)) ∧
    (2 ^ 16 ≤ n →
      cursorHeight (h * 2 ^ 16 + n) = (h : Int) + ((n / 2 ^ 16 : Nat) : Int) ∧
      cursorOpN (h * 2 ^ 16 + n) = ((n % 2 ^ 16 : Nat) : Int) ∧
      cursorHeight (h * 2 ^ 16 + n) ≠ (h : Int)) := by
  have hdiv : ∀ m : Nat, cursorHeight m = ((m / 65536 : Nat) : Int) := cursorHeight_eq_div
  have hmod : ∀ m : Nat, cursorOpN m = ((m % 65536 : Nat) : Int) := cursorOpN_eq_mod
  refine ⟨?_, ?_, ?_, ?_, ?_⟩
  · simp [evalCond, cursorCond, fieldVal, Bool.or_eq_true, Bool.and_eq_true,
      decide_eq_true_eq]
  · simp [evalCond, cursorCond, fieldVal, Bool.or_eq_true, Bool.and_eq_true,
      decide_eq_true_eq]
  · simp [evalCond, idFilterCond, fieldVal, Bool.and_eq_true, decide_eq_true_eq]
  · intro hn
    have hp : (2 : ℕ) ^ 16 = 65536 := by norm_num
    rw [hp] at hn ⊢
    have e1 : (h * 65536 + n) / 65536 = h + n / 65536 := by
      rw [Nat.mul_comm]
      exact Nat.mul_add_div (by norm_num) h n
    have e2 : (h * 65536 + n) % 65536 = n % 65536 := by
      rw [Nat.mul_comm]
      exact Nat.mul_add_mod 65536 h n
    constructor
    · rw [hdiv, e1, Nat.div_eq_of_lt hn]
      simp
    · rw [hmod, e2, Nat.mod_eq_of_lt hn]
  · intro hn
    have hp : (2 : ℕ) ^ 16 = 65536 := by norm_num
    rw [hp] at hn ⊢
    have e1 : (h * 65536 + n) / 65536 = h + n / 65536 := by
      rw [Nat.mul_comm]
      exact Nat.mul_add_div (by norm_num) h n
    have e2 : (h * 65536 + n) % 65536 = n % 65536 := by
      rw [Nat.mul_comm]
      exact Nat.mul_add_mod 65536 h n
    have hone : 1 ≤ n / 65536 := by
      rw [Nat.le_div_iff_mul_le (by norm_num)]
      omega
    refine ⟨?_, ?_, ?_⟩
    · rw [hdiv, e1]; push_cast; ring
    · rw [hmod, e2]
    · rw [hdiv, e1]
      push_cast
      omega

theorem streamOpTable_cursor_semantics_witness :
    evalCond (cursorCond .asc 65537) { height := 2, opN := 0 } = true ∧
    cursorHeight (1 * 2 ^ 16 + 65536) ≠ ((1 : Nat) : Int) := by
  have t := streamOpTable_cursor_semantics 65537 { height := 2, opN := 0 } 1 65536
  refine ⟨t.1.mpr ?_, (t.2.2.2.2 (by norm_num)).2.2⟩
  left
  decide

/-- C8: `NewBlock` evaluated at the failing input.  With one pooled block
and a nil bundle it returns the missing-rpc-block error with the pool left
empty: the block it allocated is dropped instead of being freed back (a
`Free` on the allocated block would have restored the pool to one entry,
as the second conjunct shows). -/
theorem newBlock_missing_rpc_pool_leak :
    newBlock 1 none none = (0, .error .missingRpcBlock) ∧
    (Block.free (allocBlock 1).2 (allocBlock 1).1).1 = 1 :=
  ⟨rfl, rfl⟩

/-- C7: for a block built by `NewBlock` with a non-nil parent, `Solvetime`
is the timestamp difference to the parent in whole seconds floored at 0;
with a nil parent it stays 0. -/
theorem newBlock_solvetime (pool : Nat) (tz : Bundle) (p : Block)
    (hblk : tz.hasBlock = true) :
    (∀ pool2 b, newBlock pool (some tz) (some p) = (pool2, .ok b) →
      b.solvetime = max 0 (tz.timestamp - p.timestamp)) ∧
    (∀ pool2 b, newBlock pool (some tz) none = (pool2, .ok b) →
      b.solvetime = 0) := by
  constructor <;> intro pool2 b hb <;> cases pool <;>
    (simp [newBlock, allocBlock, hblk] at hb) <;>
    (obtain ⟨h1, h2⟩ := hb) <;>
    (subst h2) <;>
    (repeat' split) <;>
    rfl

theorem newBlock_solvetime_witness :
    (∀ pool2 b,
      newBlock 0 (some { timestamp := 30 }) (some { timestamp := 50 }) = (pool2, .ok b) →
      b.solvetime = max 0 (30 - 50)) ∧
    (∀ pool2 b, newBlock 0 (some { timestamp := 30 }) none = (pool2, .ok b) →
      b.solvetime = 0) :=
  newBlock_solvetime 0 { timestamp := 30 } { timestamp := 50 } rfl

theorem rights_not_mem_prefix (b : FetchView) (hh c : Int) :
    RpcCall.fetchRights hh c ∉
      ((if ¬b.hasTZBlock then [RpcCall.getBlock b.hash] else []) ++
        (if ¬b.hasParams ∧ 0 < b.height then [RpcCall.getConstants b.height] else [])) := by
  split <;> split <;> simp

/-- C4: when `Block.FetchRPC` succeeds, it has issued a rights fetch
exactly when the height is a cycle start at or above the start of cycle 2,
and any rights fetch issued is for the block's height and for cycle
`Cycle + PreservedCycles` (the N-5 lookahead quirk preserved as coded). -/
theorem fetchRPC_rights_condition (p : Params) (b : FetchView) (calls : List RpcCall)
    (hok : fetchRPC p b = .ok calls) :
    ((∃ hh c, RpcCall.fetchRights hh c ∈ calls) ↔
      (p.cycleStartHeight 2 ≤ b.height ∧ p.isCycleStart b.height = true)) ∧
    (∀ hh c, RpcCall.fetchRights hh c ∈ calls →
      hh = b.height ∧ c = b.cycle + p.preservedCycles) := by
  have hpre := rights_not_mem_prefix b
  unfold fetchRPC at hok
  split at hok
  · cases hok
  · dsimp only at hok
    split at hok
    case isTrue hcond =>
      injection hok with hok
      subst hok
      constructor
      · constructor
        · intro _; exact hcond
        · intro _
          exact ⟨b.height, b.cycle + p.preservedCycles, by simp⟩
      · intro hh c hmem
        rcases List.mem_append.mp hmem with hmem | hmem
        · exact absurd hmem (hpre hh c)
        · simp at hmem
          exact ⟨hmem.1, hmem.2⟩
    case isFalse hcond =>
      injection hok with hok
      subst hok
      constructor
      · constructor
        · intro ⟨hh, c, hmem⟩
          exact absurd hmem (hpre hh c)
        · intro hc; exact absurd hc hcond
      · intro hh c hmem
        exact absurd hmem (hpre hh c)

theorem fetchRPC_rights_condition_witness :
    ((∃ hh c, RpcCall.fetchRights hh c ∈ [RpcCall.fetchRights 8192 7]) ↔
      ((fun _ => (8192 : Int)) 2 ≤ (8192 : Int) ∧
        (fun hh : Int => decide (hh % 4096 = 0)) 8192 = true)) ∧
    (∀ hh c, RpcCall.fetchRights hh c ∈ [RpcCall.fetchRights 8192 7] →
      hh = (8192 : Int) ∧ c = (2 : Int) + 5) := by
  have t := fetchRPC_rights_condition
    { preservedCycles := 5, cycleStartHeight := fun _ => 8192,
      isCycleStart := fun hh => decide (hh % 4096 = 0) }
    { hashValid := true, hasTZBlock := true, hasParams := true,
      height := 8192, cycle := 2 }
    [RpcCall.fetchRights 8192 7] (by norm_num [fetchRPC])
  exact t

/-- C3 counterexample: two baking flows in the same category (rewards) at
one position.  The claimed additive accumulation would leave
`Reward = 100 + 50`; the code overwrites, leaving `Reward = 50` (last
write wins). -/
theorem appendImplicitEvents_same_category_cex :
    (appendImplicitEvents 12 {}
      [{ opN := 0, accountId := 7, operation := .baking, category := .rewards,
         amountIn := 100 },
       { opN := 0, accountId := 7, operation := .baking, category := .rewards,
         amountIn := 50 }]).ops.map (fun o => o.reward) = [50] ∧
    (50 : Int) ≠ 100 + 50 :=
  ⟨rfl, by decide⟩

/-- C3 (amended): the first flow at a position creates the synthetic Op;
for baking flows the `deposits` and `rewards` category amounts are written
by plain assignment (so a repeated category overwrites, last write wins)
while the `balance` category accumulates; in the spec's scenario — one
baking `rewards` flow of 100 and one baking `deposits` flow of 200 at
position 3 — exactly one synthetic Op of type bake is created at position
3 with `Reward = 100` and `Deposit = 200`.  The second conjunct is the
general overwrite behaviour for a repeated category. -/
theorem appendImplicitEvents_bake_scenario (a b : Int) :
    (appendImplicitEvents 12 {}
      [{ opN := 3, accountId := 7, operation := .baking, category := .rewards,
         amountIn := 100 },
       { opN := 3, accountId := 7, operation := .baking, category := .deposits,
         amountIn := 200 }]).ops.map (fun o => (o.opN, o.type, o.reward, o.deposit)) =
      [(3, .bake, 100, 200)] ∧
    (appendImplicitEvents 12 {}
      [{ opN := 0, accountId := 7, operation := .baking, category := .rewards,
         amountIn := a },
       { opN := 0, accountId := 7, operation := .baking, category := .rewards,
         amountIn := b }]).ops.map (fun o => o.reward) = [b] := by
  constructor
  · rfl
  · rfl

theorem slotUpdate_opN (v : Int) (f : Flow) (cur : Option Op) (o2 : Op)
    (h : slotUpdate v f cur = some o2) :
    (∃ o, cur = some o ∧ o2.opN = o.opN) ∨ o2.opN = f.opN := by
  cases hf : f.operation <;> cases cur <;>
    simp only [slotUpdate, hf] at h <;>
    (repeat' split at h) <;>
    first
      | exact Option.noConfusion h
      | (injection h with h
         subst h
         simp [newEventOp])

theorem flows_foldl_slot_inv (v : Int) (F : List Flow) :
    ∀ (fl : List Flow) (l : List (Option Op)),
      (∀ f2 ∈ fl, f2 ∈ F) →
      (∀ x ∈ l, ∀ o : Op, x = some o → ∃ f2 ∈ F, f2.opN = o.opN) →
      ∀ x ∈ fl.foldl (flowStep v) l, ∀ o : Op, x = some o →
        ∃ f2 ∈ F, f2.opN = o.opN := by
  intro fl
  induction fl with
  | nil =>
    intro l _ hl
    simpa using hl
  | cons f fs ih =>
    intro l hmem hl
    simp only [List.foldl_cons]
    apply ih
    · intro f2 h2
      exact hmem f2 (by simp [h2])
    · intro x hx o hxo
      subst hxo
      unfold flowStep at hx
      split at hx
      · exact hl _ hx _ rfl
      · rcases List.mem_or_eq_of_mem_set hx with hx2 | hx2
        · exact hl _ hx2 _ rfl
        · rcases slotUpdate_opN v f _ o hx2.symm with ⟨o0, ho0, hopn⟩ | hopn
          · have hb : f.opN.toNat < l.length := by omega
            have hcur : l.getD f.opN.toNat none ∈ l := by
              rw [List.getD_eq_getElem l none hb]
              exact List.getElem_mem hb
            rcases hl _ hcur o0 ho0 with ⟨f2, hf2, hf2n⟩
            exact ⟨f2, hf2, by rw [hf2n, hopn]⟩
          · exact ⟨f, hmem f (by simp), hopn.symm⟩

/-- C5: implicit-event compaction.  Every op that `AppendImplicitEvents`
adds sits at a position-in-block that some flow of the input list carries
(nil slots of the sparse array are skipped), and with an empty flow list
the block state is returned untouched: no op and no flow is added. -/
theorem appendImplicitEvents_compaction (v : Int) (st : BuildState)
    (flows : List Flow) (op : Op)
    (hmem : op ∈ (appendImplicitEvents v st flows).ops) :
    (op ∈ st.ops ∨ ∃ f ∈ flows, f.opN = op.opN) ∧
    appendImplicitEvents v st [] = st := by
  refine ⟨?_, rfl⟩
  cases flows with
  | nil =>
    left
    simpa [appendImplicitEvents] using hmem
  | cons f fs =>
    simp only [appendImplicitEvents] at hmem
    rcases List.mem_append.mp hmem with hmem2 | hmem2
    · exact .inl hmem2
    · right
      rcases List.mem_filterMap.mp hmem2 with ⟨x, hx, hxo⟩
      refine flows_foldl_slot_inv v (f :: fs) (f :: fs) _ (fun _ h => h)
        ?_ x hx op (by simpa using hxo)
      intro x2 hx2 o hxo2
      subst hxo2
      have := List.eq_of_mem_replicate hx2
      cases this

theorem appendImplicitEvents_compaction_witness :
    (({ opN := 1, opL := OPL_BLOCK_EVENTS, opP := 1, type := .bake,
        isSuccess := true, isEvent := true, receiverId := 3, senderId := 3,
        reward := 5 } : Op) ∈ (BuildState.ops {}) ∨
      ∃ f ∈ [({ opN := 1, accountId := 3, operation := .baking,
                category := .rewards, amountIn := 5 } : Flow)],
        f.opN = ({ opN := 1, opL := OPL_BLOCK_EVENTS, opP := 1, type := .bake,
                   isSuccess := true, isEvent := true, receiverId := 3,
                   senderId := 3, reward := 5 } : Op).opN) ∧
    appendImplicitEvents 12 {} [] = {} :=
  appendImplicitEvents_compaction 12 {}
    [{ opN := 1, accountId := 3, operation := .baking, category := .rewards,
       amountIn := 5 }]
    { opN := 1, opL := OPL_BLOCK_EVENTS, opP := 1, type := .bake,
      isSuccess := true, isEvent := true, receiverId := 3, senderId := 3,
      reward := 5 }
    (by decide)

theorem doTxUpdates_missing (env : BuilderEnv) (r : ImplicitResult)
    (hcl : ∀ i, (env.loadContractByAccountId i).isSome = true) :
    ∀ (updates : List BalanceUpdate) (id : OpRef) (st : BuildState)
      (v : BalanceUpdate),
      v ∈ updates → v.address.valid = true →
      env.accountByAddress v.address = none →
      ∃ e, doTxUpdates env r id updates st = .error e ∧ errorNamesMissing env e := by
  intro updates
  induction updates with
  | nil =>
    intro id st v hv
    cases hv
  | cons u rest ih =>
    intro id st v hv hvalid hmiss
    rcases List.mem_cons.mp hv with rfl | hv2
    · exact ⟨.missingAccount r.kind (nextN st.ops) v.address,
        by simp [doTxUpdates, hvalid, hmiss], hmiss⟩
    · by_cases hu : u.address.valid = true
      · cases hlook : env.accountByAddress u.address with
        | none =>
          exact ⟨.missingAccount r.kind (nextN st.ops) u.address,
            by simp [doTxUpdates, hu, hlook], hlook⟩
        | some dst =>
          cases hcon : env.loadContractByAccountId dst.rowId with
          | none =>
            have h2 := hcl dst.rowId
            rw [hcon] at h2
            cases h2
          | some c =>
            simp only [doTxUpdates, hu, hlook, hcon, not_true, if_false,
              Bool.not_eq_true, Bool.false_eq_true, ite_false]
            exact ih _ _ v hv2 hvalid hmiss
      · simp only [doTxUpdates, hu, Bool.not_eq_true, Bool.false_eq_true,
          ite_true, if_true]
        simp only [hu, not_false_iff, if_pos]
        exact ih _ _ v hv2 hvalid hmiss

theorem appendImplicitBlockOps_err (env : BuilderEnv) (r : ImplicitResult)
    (h : ∀ st2, ∃ e, doImplicitResult env st2 r = .error e) :
    ∀ (results : List ImplicitResult) (st : BuildState), r ∈ results →
      ∃ e, appendImplicitBlockOps env results st = .error e := by
  intro results
  induction results with
  | nil =>
    intro st hr
    cases hr
  | cons a rest ih =>
    intro st hr
    rcases List.mem_cons.mp hr with rfl | hr2
    · rcases h st with ⟨e, he⟩
      refine ⟨e, ?_⟩
      unfold appendImplicitBlockOps
      rw [he]
    · unfold appendImplicitBlockOps
      cases hd : doImplicitResult env st a with
      | error e => exact ⟨e, rfl⟩
      | ok st2 => exact ih st2 hr2

/-- C6: whenever an implicit operation result references an
originated-contract address or a valid balance-update address that
`AccountByAddress` cannot resolve, `AppendImplicitBlockOps` aborts with an
error naming a missing account, and no updated block state is produced (so
no op for that result reaches the block).  The first conjunct pins the
exact origination error; the second covers a missing balance-update
account of a transaction result (assuming contract loading itself
succeeds, which otherwise produces a different error first); the third
lifts any per-result failure to the whole fold. -/
theorem appendImplicitBlockOps_missing_account (env : BuilderEnv)
    (st : BuildState) (r : ImplicitResult) (results : List ImplicitResult)
    (v : BalanceUpdate) :
    (r.kind = .origination → env.accountByAddress r.originatedContract = none →
      doImplicitResult env st r =
        .error (.missingOriginated r.kind (nextN st.ops) r.originatedContract)) ∧
    (r.kind = .transaction → v ∈ r.balanceUpdates → v.address.valid = true →
      env.accountByAddress v.address = none →
      (∀ i, (env.loadContractByAccountId i).isSome = true) →
      ∃ e, doImplicitResult env st r = .error e ∧ errorNamesMissing env e) ∧
    ((∀ st2, ∃ e, doImplicitResult env st2 r = .error e) → r ∈ results →
      ∃ e, appendImplicitBlockOps env results st = .error e) := by
  refine ⟨?_, ?_, ?_⟩
  · intro hk hmiss
    unfold doImplicitResult
    rw [hk, hmiss]
  · intro hk hv hvalid hmiss hcl
    rcases doTxUpdates_missing env r hcl r.balanceUpdates
      { n := nextN st.ops, l := OPL_BLOCK_HEADER, p := nextN st.ops }
      st v hv hvalid hmiss with ⟨e, he, hn⟩
    refine ⟨e, ?_, hn⟩
    unfold doImplicitResult
    rw [hk]
    exact he
  · intro h hr
    exact appendImplicitBlockOps_err env r h results st hr

theorem appendImplicitBlockOps_missing_account_witness :
    (doImplicitResult envMissing {} rOrigW =
      .error (.missingOriginated .origination 0 addrW)) ∧
    (∃ e, doImplicitResult envMissing {} rTxW = .error e ∧
      errorNamesMissing envMissing e) ∧
    (∃ e, appendImplicitBlockOps envMissing [rTxW] {} = .error e) := by
  have hmem : vW ∈ rTxW.balanceUpdates := by decide
  have hall : ∀ st2, ∃ e, doImplicitResult envMissing st2 rTxW = .error e := by
    intro st2
    rcases (appendImplicitBlockOps_missing_account envMissing st2 rTxW [] vW).2.1
      rfl hmem rfl rfl (fun _ => rfl) with ⟨e, he, _⟩
    exact ⟨e, he⟩
  refine ⟨?_, ?_, ?_⟩
  · exact (appendImplicitBlockOps_missing_account envMissing {} rOrigW [] vW).1 rfl rfl
  · exact (appendImplicitBlockOps_missing_account envMissing {} rTxW [] vW).2.1
      rfl hmem rfl rfl (fun _ => rfl)
  · exact (appendImplicitBlockOps_missing_account envMissing {} rTxW [rTxW] vW).2.2
      hall (by simp)

set_option maxHeartbeats 2000000 in
theorem opStep_spec (b : Block) (s : Int) (op : Op) :
    ((opStep (b, s) op).1.counters, (opStep (b, s) op).2) =
      cStep b.paramsVersion (b.counters, s) op ∧
    (opStep (b, s) op).1.height = b.height ∧
    (opStep (b, s) op).1.paramsVersion = b.paramsVersion ∧
    (opStep (b, s) op).1.ops = b.ops ∧
    (opStep (b, s) op).1.nSlotsEndorsed = b.nSlotsEndorsed := by
  cases h : op.type
  case transaction =>
    cases hs : op.isSuccess <;> cases he : op.isEvent <;>
      cases hi : op.isInternal <;> cases hz : op.txDestZero <;>
        cases hc : op.txDestIsContract <;> cases hp : op.hasParams <;>
          refine ⟨?_, ?_, ?_, ?_, ?_⟩ <;>
            simp [opStep, cStep, h, hs, he, hi, hz, hc, hp, Block.counters]
  all_goals
    refine ⟨?_, ?_, ?_, ?_, ?_⟩ <;>
      simp only [opStep, cStep, h] <;>
      (repeat' split) <;>
      (first | rfl | simp [Block.counters])

set_option maxHeartbeats 4000000 in
theorem accStep_spec (b : Block) (acc : Account) :
    (accStep b acc).counters = caStep b.height b.counters acc ∧
    (accStep b acc).height = b.height ∧
    (accStep b acc).paramsVersion = b.paramsVersion ∧
    (accStep b acc).ops = b.ops ∧
    (accStep b acc).nSlotsEndorsed = b.nSlotsEndorsed := by
  by_cases hls : acc.lastSeen = b.height <;>
    cases hn : acc.isNew <;> cases hd : acc.isDirty <;> cases hb : acc.isBaker <;>
      cases hc : acc.isContract <;> cases hf : acc.isFunded <;>
        cases hw : acc.wasFunded <;>
          refine ⟨?_, ?_, ?_, ?_, ?_⟩ <;>
            simp [accStep, caStep, hn, hd, hb, hc, hf, hw, hls, Block.counters]

set_option maxHeartbeats 4000000 in
theorem bakerStep_spec (b : Block) (bkr : Baker) :
    (bakerStep b bkr).counters = cbStep b.height b.counters bkr ∧
    (bakerStep b bkr).height = b.height ∧
    (bakerStep b bkr).paramsVersion = b.paramsVersion ∧
    (bakerStep b bkr).ops = b.ops ∧
    (bakerStep b bkr).nSlotsEndorsed = b.nSlotsEndorsed := by
  by_cases hls : bkr.account.lastSeen = b.height <;>
    cases hn : bkr.account.isNew <;> cases hf : bkr.account.isFunded <;>
      cases hw : bkr.account.wasFunded <;>
        refine ⟨?_, ?_, ?_, ?_, ?_⟩ <;>
          simp [bakerStep, cbStep, hn, hf, hw, hls, Block.counters]

theorem fold_opStep (ops : List Op) :
    ∀ (b : Block) (s : Int),
      (ops.foldl opStep (b, s)).1.counters =
        (ops.foldl (cStep b.paramsVersion) (b.counters, s)).1 ∧
      (ops.foldl opStep (b, s)).2 =
        (ops.foldl (cStep b.paramsVersion) (b.counters, s)).2 ∧
      (ops.foldl opStep (b, s)).1.height = b.height ∧
      (ops.foldl opStep (b, s)).1.paramsVersion = b.paramsVersion ∧
      (ops.foldl opStep (b, s)).1.ops = b.ops ∧
      (ops.foldl opStep (b, s)).1.nSlotsEndorsed = b.nSlotsEndorsed := by
  induction ops with
  | nil =>
    intro b s
    exact ⟨rfl, rfl, rfl, rfl, rfl, rfl⟩
  | cons op rest ih =>
    intro b s
    obtain ⟨h1, h2, h3, h4, h5⟩ := opStep_spec b s op
    obtain ⟨g1, g2, g3, g4, g5, g6⟩ := ih (opStep (b, s) op).1 (opStep (b, s) op).2
    simp only [List.foldl_cons]
    refine ⟨?_, ?_, ?_, ?_, ?_, ?_⟩
    · rw [g1, h3, h1]
    · rw [g2, h3, h1]
    · rw [g3, h2]
    · rw [g4, h3]
    · rw [g5, h4]
    · rw [g6, h5]

theorem fold_accStep (accounts : List Account) :
    ∀ b : Block,
      (accounts.foldl accStep b).counters =
        accounts.foldl (caStep b.height) b.counters ∧
      (accounts.foldl accStep b).height = b.height ∧
      (accounts.foldl accStep b).paramsVersion = b.paramsVersion ∧
      (accounts.foldl accStep b).ops = b.ops ∧
      (accounts.foldl accStep b).nSlotsEndorsed = b.nSlotsEndorsed := by
  induction accounts with
  | nil =>
    intro b
    exact ⟨rfl, rfl, rfl, rfl, rfl⟩
  | cons acc rest ih =>
    intro b
    obtain ⟨h1, h2, h3, h4, h5⟩ := accStep_spec b acc
    obtain ⟨g1, g2, g3, g4, g5⟩ := ih (accStep b acc)
    simp only [List.foldl_cons]
    refine ⟨?_, ?_, ?_, ?_, ?_⟩
    · rw [g1, h2, h1]
    · rw [g2, h2]
    · rw [g3, h3]
    · rw [g4, h4]
    · rw [g5, h5]

theorem fold_bakerStep (bakers : List Baker) :
    ∀ b : Block,
      (bakers.foldl bakerStep b).counters =
        bakers.foldl (cbStep b.height) b.counters ∧
      (bakers.foldl bakerStep b).height = b.height ∧
      (bakers.foldl bakerStep b).paramsVersion = b.paramsVersion ∧
      (bakers.foldl bakerStep b).ops = b.ops ∧
      (bakers.foldl bakerStep b).nSlotsEndorsed = b.nSlotsEndorsed := by
  induction bakers with
  | nil =>
    intro b
    exact ⟨rfl, rfl, rfl, rfl, rfl⟩
  | cons bkr rest ih =>
    intro b
    obtain ⟨h1, h2, h3, h4, h5⟩ := bakerStep_spec b bkr
    obtain ⟨g1, g2, g3, g4, g5⟩ := ih (bakerStep b bkr)
    simp only [List.foldl_cons]
    refine ⟨?_, ?_, ?_, ?_, ?_⟩
    · rw [g1, h2, h1]
    · rw [g2, h2]
    · rw [g3, h3]
    · rw [g4, h4]
    · rw [g5, h5]

theorem cStep_snd (pv : Int) (x : Counters × Int) (op : Op) :
    (cStep pv x op).2 = x.2 + (if op.type = .endorsement then op.power else 0) := by
  cases h : op.type <;> simp [cStep, h]

theorem foldl_slot_shift (ops : List Op) : ∀ s : Int,
    ops.foldl (fun s op => s + if op.type = .endorsement then op.power else 0) s =
      s + ops.foldl (fun s op => s + if op.type = .endorsement then op.power else 0) 0 := by
  induction ops with
  | nil =>
    intro s
    simp
  | cons op rest ih =>
    intro s
    simp only [List.foldl_cons, zero_add]
    rw [ih, ih (if op.type = .endorsement then op.power else 0)]
    ring

theorem endorsedSum_cons (op : Op) (rest : List Op) :
    endorsedSum (op :: rest) =
      (if op.type = .endorsement then op.power else 0) + endorsedSum rest := by
  unfold endorsedSum
  simp only [List.foldl_cons, zero_add]
  exact foldl_slot_shift rest _

theorem cStep_slots (pv : Int) (ops : List Op) : ∀ (c : Counters) (s : Int),
    (ops.foldl (cStep pv) (c, s)).2 = s + endorsedSum ops := by
  induction ops with
  | nil =>
    intro c s
    simp [endorsedSum]
  | cons op rest ih =>
    intro c s
    simp only [List.foldl_cons]
    rcases hx : cStep pv (c, s) op with ⟨c2, s2⟩
    have hsnd := cStep_snd pv (c, s) op
    rw [hx] at hsnd
    simp only [] at hsnd
    rw [ih c2 s2, hsnd, endorsedSum_cons]
    ring

/-- Characterization of `Block.Update`: the recomputed counters are a pure
fold over the op list and the account/baker collections starting from
all-zero counters (no dependence on the receiver's previous counter
values); height, protocol version, the op list and the receiver's own
`NSlotsEndorsed` are untouched; and the parent, when present, gets its
`NSlotsEndorsed` overwritten with the endorsement power total of the
receiver's ops. -/
theorem update_spec (b : Block) (parent : Option Block)
    (accounts : List Account) (bakers : List Baker) :
    (b.update parent accounts bakers).1.counters =
      counterSpec b.height b.paramsVersion b.ops accounts bakers ∧
    (b.update parent accounts bakers).1.height = b.height ∧
    (b.update parent accounts bakers).1.paramsVersion = b.paramsVersion ∧
    (b.update parent accounts bakers).1.ops = b.ops ∧
    (b.update parent accounts bakers).1.nSlotsEndorsed = b.nSlotsEndorsed ∧
    (b.update parent accounts bakers).2 =
      parent.map (fun p => { p with nSlotsEndorsed := endorsedSum b.ops }) := by
  simp only [Block.update]
  obtain ⟨f1, f2, f3, f4, f5, f6⟩ := fold_opStep b.ops
    { b with
      nOpsApplied := 0, nOpsFailed := 0, nEvents := 0, nContractCalls := 0,
      nRollupCalls := 0, nTx := 0, volume := 0, fee := 0, reward := 0,
      deposit := 0, activatedSupply := 0, burnedSupply := 0, mintedSupply := 0,
      seenAccounts := 0, newAccounts := 0, newContracts := 0,
      clearedAccounts := 0, fundedAccounts := 0, gasLimit := 0, gasUsed := 0,
      storagePaid := 0 } 0
  obtain ⟨a1, a2, a3, a4, a5⟩ := fold_accStep accounts
    (b.ops.foldl opStep
      ({ b with
        nOpsApplied := 0, nOpsFailed := 0, nEvents := 0, nContractCalls := 0,
        nRollupCalls := 0, nTx := 0, volume := 0, fee := 0, reward := 0,
        deposit := 0, activatedSupply := 0, burnedSupply := 0,
        mintedSupply := 0, seenAccounts := 0, newAccounts := 0,
        newContracts := 0, clearedAccounts := 0, fundedAccounts := 0,
        gasLimit := 0, gasUsed := 0, storagePaid := 0 }, 0)).1
  obtain ⟨k1, k2, k3, k4, k5⟩ := fold_bakerStep bakers
    (accounts.foldl accStep
      (b.ops.foldl opStep
        ({ b with
          nOpsApplied := 0, nOpsFailed := 0, nEvents := 0, nContractCalls := 0,
          nRollupCalls := 0, nTx := 0, volume := 0, fee := 0, reward := 0,
          deposit := 0, activatedSupply := 0, burnedSupply := 0,
          mintedSupply := 0, seenAccounts := 0, newAccounts := 0,
          newContracts := 0, clearedAccounts := 0, fundedAccounts := 0,
          gasLimit := 0, gasUsed := 0, storagePaid := 0 }, 0)).1)
  refine ⟨?_, ?_, ?_, ?_, ?_, ?_⟩
  · rw [k1, a2, a1, f3, f1]
    rfl
  · rw [k2, a2, f3]
  · rw [k3, a3, f4]
  · rw [k4, a4, f5]
  · rw [k5, a5, f6]
  · rw [f2, cStep_slots, zero_add]


/-- C2: `Block.Update` recomputes every aggregate counter from scratch as
a fold over the current op list and the supplied account and baker
collections.  First conjunct: running `Update` a second time on its own
output (with the updated parent) leaves all counters unchanged
(idempotence).  Second conjunct: the result does not depend on the counter
values held before the call — overwriting them arbitrarily first gives the
same recomputed counters. -/
theorem update_counters_idempotent (b : Block) (parent : Option Block)
    (accounts : List Account) (bakers : List Baker) (c : Counters) :
    ((b.update parent accounts bakers).1.update
        (b.update parent accounts bakers).2 accounts bakers).1.counters =
      (b.update parent accounts bakers).1.counters ∧
    ((b.setCounters c).update parent accounts bakers).1.counters =
      (b.update parent accounts bakers).1.counters := by
  obtain ⟨h1, h2, h3, h4, h5, h6⟩ := update_spec b parent accounts bakers
  constructor
  · obtain ⟨g1, g2, g3, g4, g5, g6⟩ := update_spec
      (b.update parent accounts bakers).1
      (b.update parent accounts bakers).2 accounts bakers
    rw [g1, h2, h3, h4, ← h1]
  · obtain ⟨k1, k2, k3, k4, k5, k6⟩ := update_spec
      (b.setCounters c) parent accounts bakers
    rw [k1, h1]
    rfl

/-- C9: `Block.Update` writes the endorsement power total of the
receiver's ops into the parent's `NSlotsEndorsed` when a parent is
present, leaves the receiver's own `NSlotsEndorsed` unchanged, and with no
parent the computed total is discarded: no block's `NSlotsEndorsed`
changes. -/
theorem update_parent_nslots (b : Block) (p : Block)
    (accounts : List Account) (bakers : List Baker) :
    (b.update (some p) accounts bakers).2 =
      some { p with nSlotsEndorsed := endorsedSum b.ops } ∧
    (b.update (some p) accounts bakers).1.nSlotsEndorsed = b.nSlotsEndorsed ∧
    (b.update none accounts bakers).2 = none ∧
    (b.update none accounts bakers).1.nSlotsEndorsed = b.nSlotsEndorsed := by
  obtain ⟨_, _, _, _, h5, h6⟩ := update_spec b (some p) accounts bakers
  obtain ⟨_, _, _, _, g5, g6⟩ := update_spec b none accounts bakers
  exact ⟨by rw [h6]; rfl, h5, by rw [g6]; rfl, g5⟩

theorem uniquePositionsB_eq_true_iff (ops : List Op) :
    uniquePositionsB ops = true ↔ uniquePositions ops := by
  simp [uniquePositionsB]

/-- C1 counterexample: one implicit transaction result with two balance
updates at valid, known addresses appends two ops that share the composite
position `(list, position-in-list, position-in-block)`: the `OpRef` is
computed once per implicit result, not once per appended op, so both ops
get `(OPL_BLOCK_HEADER, 0, 0)` and positional uniqueness fails. -/
theorem appendImplicitBlockOps_shared_position_cex :
    (appendImplicitBlockOps envTwo [rTwo] {}).toOption.map
        (fun st => st.ops.map (fun o => (o.opL, o.opP, o.opN))) =
      some [(OPL_BLOCK_HEADER, 0, 0), (OPL_BLOCK_HEADER, 0, 0)] ∧
    (appendImplicitBlockOps envTwo [rTwo] {}).toOption.map
        (fun st => uniquePositionsB st.ops) = some false :=
  ⟨rfl, rfl⟩

theorem nextN_gt (ops : List Op) :
    opNSorted ops → ∀ o ∈ ops, o.opN < nextN ops := by
  induction ops with
  | nil =>
    intro _ o ho
    cases ho
  | cons a t ih =>
    intro hsort o ho
    cases t with
    | nil =>
      rcases List.mem_singleton.mp ho with rfl
      have h1 : nextN [o] = o.opN + 1 := rfl
      rw [h1]
      omega
    | cons b t2 =>
      have hnx : nextN (a :: b :: t2) = nextN (b :: t2) := by
        unfold nextN
        rw [List.getLast?_cons_cons]
      have hcc := List.chain'_cons.mp hsort
      rcases List.mem_cons.mp ho with rfl | ho2
      · have hb := ih hcc.2 b (List.mem_cons_self b t2)
        rw [hnx]
        exact lt_trans hcc.1 hb
      · rw [hnx]
        exact ih hcc.2 o ho2

theorem opNSorted_append_one (ops : List Op) (o : Op) (hsort : opNSorted ops)
    (hgt : ∀ x ∈ ops, x.opN < o.opN) : opNSorted (ops ++ [o]) := by
  unfold opNSorted at *
  rw [List.chain'_append]
  refine ⟨hsort, List.chain'_singleton o, ?_⟩
  intro x hx y hy
  simp only [List.head?_cons, Option.mem_def, Option.some.injEq] at hy
  subst hy
  exact hgt x (List.mem_of_mem_getLast? hx)

theorem uniquePositions_of_sorted (ops : List Op) (h : opNSorted ops) :
    uniquePositions ops := by
  unfold uniquePositions
  unfold opNSorted at h
  haveI : IsTrans Op (fun a b => a.opN < b.opN) :=
    ⟨fun a b c hab hbc => lt_trans hab hbc⟩
  have hp := List.chain'_iff_pairwise.mp h
  refine hp.imp ?_
  intro a b hlt hcon
  rw [hcon.2.2] at hlt
  exact lt_irrefl _ hlt

theorem origFold_pos (dst : Account) (id : OpRef) :
    ∀ (updates : List BalanceUpdate) (x : Op × List Flow),
      (updates.foldl (fun (acc : Op × List Flow) v =>
          if v.kind = BalanceUpdateKind.minted ∨ v.kind = BalanceUpdateKind.burned
          then acc
          else ({ acc.1 with volume := acc.1.volume + v.amount },
                acc.2 ++ [newSubsidyFlow dst v.amount id])) x).1.opN = x.1.opN ∧
      (updates.foldl (fun (acc : Op × List Flow) v =>
          if v.kind = BalanceUpdateKind.minted ∨ v.kind = BalanceUpdateKind.burned
          then acc
          else ({ acc.1 with volume := acc.1.volume + v.amount },
                acc.2 ++ [newSubsidyFlow dst v.amount id])) x).1.opL = x.1.opL ∧
      (updates.foldl (fun (acc : Op × List Flow) v =>
          if v.kind = BalanceUpdateKind.minted ∨ v.kind = BalanceUpdateKind.burned
          then acc
          else ({ acc.1 with volume := acc.1.volume + v.amount },
                acc.2 ++ [newSubsidyFlow dst v.amount id])) x).1.opP = x.1.opP := by
  intro updates
  induction updates with
  | nil =>
    intro x
    exact ⟨rfl, rfl, rfl⟩
  | cons v rest ih =>
    intro x
    simp only [List.foldl_cons]
    refine ⟨?_, ?_, ?_⟩
    · rw [(ih _).1]
      split <;> rfl
    · rw [(ih _).2.1]
      split <;> rfl
    · rw [(ih _).2.2]
      split <;> rfl

theorem doTxUpdates_zero (env : BuilderEnv) (r : ImplicitResult) :
    ∀ (updates : List BalanceUpdate) (id : OpRef) (st st2 : BuildState),
      (updates.filter (fun v => v.address.valid)).length = 0 →
      doTxUpdates env r id updates st = .ok st2 → st2.ops = st.ops := by
  intro updates
  induction updates with
  | nil =>
    intro id st st2 _ hok
    injection hok with h
    rw [← h]
  | cons u rest ih =>
    intro id st st2 hlen hok
    have hu : u.address.valid = false := by
      by_contra hne
      have hu2 : u.address.valid = true := by simpa using hne
      simp [List.filter_cons, hu2] at hlen
    unfold doTxUpdates at hok
    rw [if_pos (by simp [hu])] at hok
    refine ih _ st st2 ?_ hok
    simpa [List.filter_cons, hu] using hlen

theorem doTxUpdates_one (env : BuilderEnv) (r : ImplicitResult) :
    ∀ (updates : List BalanceUpdate) (id : OpRef) (st st2 : BuildState),
      (updates.filter (fun v => v.address.valid)).length ≤ 1 →
      doTxUpdates env r id updates st = .ok st2 →
      st2.ops = st.ops ∨
        ∃ o : Op, o.opN = id.n ∧ o.opL = id.l ∧ o.opP = id.p ∧
          st2.ops = st.ops ++ [o] := by
  intro updates
  induction updates with
  | nil =>
    intro id st st2 _ hok
    injection hok with h
    exact .inl (by rw [← h])
  | cons u rest ih =>
    intro id st st2 hlen hok
    by_cases hu : u.address.valid = true
    · have hrest : (rest.filter (fun v => v.address.valid)).length = 0 := by
        simp [List.filter_cons, hu] at hlen
        simpa using hlen
      unfold doTxUpdates at hok
      rw [if_neg (by simp [hu])] at hok
      cases hlook : env.accountByAddress u.address with
      | none =>
        rw [hlook] at hok
        simp at hok
      | some dst =>
        rw [hlook] at hok
        dsimp only at hok
        cases hcon : env.loadContractByAccountId dst.rowId with
        | none =>
          rw [hcon] at hok
          simp at hok
        | some dCon =>
          rw [hcon] at hok
          dsimp only at hok
          have h0 := doTxUpdates_zero env r rest _ _ st2 hrest hok
          right
          rw [h0]
          split <;> exact ⟨_, rfl, rfl, rfl, rfl⟩
    · rw [Bool.not_eq_true] at hu
      unfold doTxUpdates at hok
      rw [if_pos (by simp [hu])] at hok
      refine ih _ st st2 ?_ hok
      simpa [List.filter_cons, hu] using hlen

theorem doImplicitResult_ops (env : BuilderEnv) (st : BuildState)
    (r : ImplicitResult) (st2 : BuildState)
    (hone : r.kind = .transaction →
      (r.balanceUpdates.filter (fun v => v.address.valid)).length ≤ 1)
    (hok : doImplicitResult env st r = .ok st2) :
    st2.ops = st.ops ∨
      ∃ o : Op, o.opN = nextN st.ops ∧ o.opL = OPL_BLOCK_HEADER ∧
        o.opP = nextN st.ops ∧ st2.ops = st.ops ++ [o] := by
  cases hk : r.kind
  case other =>
    unfold doImplicitResult at hok
    rw [hk] at hok
    dsimp only at hok
    injection hok with h
    exact .inl (by rw [← h])
  case transaction =>
    unfold doImplicitResult at hok
    rw [hk] at hok
    dsimp only at hok
    rcases doTxUpdates_one env r r.balanceUpdates _ st st2 (hone hk) hok with
      h | ⟨o, h1, h2, h3, h4⟩
    · exact .inl h
    · exact .inr ⟨o, h1, h2, h3, h4⟩
  case origination =>
    unfold doImplicitResult at hok
    rw [hk] at hok
    dsimp only at hok
    cases hlook : env.accountByAddress r.originatedContract with
    | none =>
      rw [hlook] at hok
      simp at hok
    | some dst =>
      rw [hlook] at hok
      dsimp only at hok
      have hfold := origFold_pos dst
      cases hscr : r.script with
      | some script =>
        rw [hscr] at hok
        dsimp only at hok
        injection hok with h
        subst h
        right
        refine ⟨_, ?_, ?_, ?_, rfl⟩
        · rw [(hfold _ _ _).1]
          by_cases hsv : r.storage.isSome = true <;> simp [hsv, newEventOp]
        · rw [(hfold _ _ _).2.1]
          by_cases hsv : r.storage.isSome = true <;> simp [hsv, newEventOp]
        · rw [(hfold _ _ _).2.2]
          by_cases hsv : r.storage.isSome = true <;> simp [hsv, newEventOp]
      | none =>
        rw [hscr] at hok
        dsimp only at hok
        cases hget : env.getContractScript dst.address with
        | none =>
          rw [hget] at hok
          simp at hok
        | some script =>
          rw [hget] at hok
          dsimp only at hok
          injection hok with h
          subst h
          right
          refine ⟨_, ?_, ?_, ?_, rfl⟩
          · rw [(hfold _ _ _).1]
            by_cases hsv : r.storage.isSome = true <;> simp [hsv, newEventOp]
          · rw [(hfold _ _ _).2.1]
            by_cases hsv : r.storage.isSome = true <;> simp [hsv, newEventOp]
          · rw [(hfold _ _ _).2.2]
            by_cases hsv : r.storage.isSome = true <;> simp [hsv, newEventOp]

/-- C1 (amended): provided every implicit transaction result contributes
at most one op (at most one balance update with a valid address), every op
appended by `AppendImplicitBlockOps` gets a position strictly above all
existing positions, so the composite positions
`(list, position-in-list, position-in-block)` of the final op list are
pairwise distinct; the op lists only grow.  As the counterexample shows,
the proviso is necessary: the ops appended for several valid balance
updates of one implicit transaction result all share a single position. -/
theorem appendImplicitBlockOps_unique_positions (env : BuilderEnv)
    (results : List ImplicitResult) :
    ∀ (st st2 : BuildState),
      opNSorted st.ops →
      (∀ r ∈ results, r.kind = .transaction →
        (r.balanceUpdates.filter (fun v => v.address.valid)).length ≤ 1) →
      appendImplicitBlockOps env results st = .ok st2 →
      opNSorted st2.ops ∧ uniquePositions st2.ops ∧ st.ops <+: st2.ops := by
  induction results with
  | nil =>
    intro st st2 hsort _ hok
    injection hok with h
    subst h
    exact ⟨hsort, uniquePositions_of_sorted _ hsort, List.prefix_refl _⟩
  | cons r rest ih =>
    intro st st2 hsort hone hok
    unfold appendImplicitBlockOps at hok
    cases hd : doImplicitResult env st r with
    | error e =>
      rw [hd] at hok
      simp at hok
    | ok stm =>
      rw [hd] at hok
      dsimp only at hok
      rcases doImplicitResult_ops env st r stm (hone r (by simp)) hd with
        hsame | ⟨o, h1, h2, h3, happ⟩
      · have hsort2 : opNSorted stm.ops := by
          rw [hsame]
          exact hsort
        obtain ⟨s1, s2, s3⟩ := ih stm st2 hsort2
          (fun q hq => hone q (by simp [hq])) hok
        refine ⟨s1, s2, ?_⟩
        rwa [hsame] at s3
      · have hgt : ∀ x ∈ st.ops, x.opN < o.opN := by
          intro x hx
          rw [h1]
          exact nextN_gt st.ops hsort x hx
        have hsort2 : opNSorted stm.ops := by
          rw [happ]
          exact opNSorted_append_one st.ops o hsort hgt
        obtain ⟨s1, s2, s3⟩ := ih stm st2 hsort2
          (fun q hq => hone q (by simp [hq])) hok
        refine ⟨s1, s2, ?_⟩
        have hpre : st.ops <+: stm.ops := by
          rw [happ]
          exact List.prefix_append _ _
        exact hpre.trans s3

theorem appendImplicitBlockOps_unique_positions_witness :
    opNSorted (({} : BuildState).ops) ∧
    appendImplicitBlockOps envTwo [rOrigX] {} = .ok stOkX ∧
    (opNSorted stOkX.ops ∧ uniquePositions stOkX.ops ∧
      (({} : BuildState).ops) <+: stOkX.ops) := by
  refine ⟨List.chain'_nil, rfl, ?_⟩
  exact appendImplicitBlockOps_unique_positions envTwo [rOrigX] {} stOkX
    List.chain'_nil (by decide) rfl

end TzIndex
